import Mathlib

/-!
Verification of the RoboBrain reasoning parser
(`vllm/reasoning/robobrain_reasoning_parser.py`).

Strings are modelled as `List Char`.  The Python string operations used by
the source (`in`, `find`, slicing, `strip`, `replace`, `split(sep, 1)`) are
given Python-faithful definitions below, and the parser's functions are
translated from the source line by line.
-/

/-- Text, modelled as a list of characters (Python `str`). -/
abbrev Str := List Char

/-- The characters removed by Python `str.strip()`. -/
def isPyWS (c : Char) : Bool :=
  c = ' ' || c = '\t' || c = '\n' || c = '\r' || c = '\x0b' || c = '\x0c'

/-- Python `s.strip()`: drop leading and trailing whitespace. -/
def pyStrip (s : Str) : Str :=
  ((s.dropWhile isPyWS).reverse.dropWhile isPyWS).reverse

/-- Index of the first occurrence of `pat` in `s`, if any. -/
def firstOcc : Str → Str → Option Nat
  | [], pat => if pat.isPrefixOf ([] : Str) then some 0 else none
  | c :: t, pat =>
    if pat.isPrefixOf (c :: t) then some 0
    else (firstOcc t pat).map (· + 1)

/-- Python `s.find(pat)`: first index of `pat` in `s`, `-1` when absent. -/
def pyFind (s pat : Str) : Int :=
  match firstOcc s pat with
  | some n => Int.ofNat n
  | none => -1

/-- Python `pat in s`: substring containment. -/
def pyContains (s pat : Str) : Bool :=
  (firstOcc s pat).isSome

/-- Python `s[a:b]` for non-negative clamped indices. -/
def pySlice (s : Str) (a b : Nat) : Str :=
  (s.take b).drop a

/-- Worker for `removeAll`; the fuel bounds the number of characters still
to be examined, so with fuel `s.length` it scans all of `s`. -/
def removeAllGo (pat : Str) : Nat → Str → Str
  | _, [] => []
  | 0, s => s
  | fuel + 1, c :: t =>
    if pat ≠ [] ∧ pat.isPrefixOf (c :: t) then
      removeAllGo pat fuel (t.drop (pat.length - 1))
    else
      c :: removeAllGo pat fuel t

/-- Python `s.replace(pat, "")` for a pattern: remove every (left-to-right,
non-overlapping) occurrence of `pat` from `s`. -/
def removeAll (pat s : Str) : Str :=
  removeAllGo pat s.length s

/-- Python truthiness of a string used as `x if x else None`. -/
def strOpt (s : Str) : Option Str :=
  if s = [] then none else some s

/-- The final normalisation `if x == "": x = None` of the full-text
extractor, applied to an optional string. -/
def emptyToNone : Option Str → Option Str
  | none => none
  | some s => if s = [] then none else some s

/-- View an optional fragment as plain text (absent ↦ empty). -/
def optText : Option Str → Str
  | none => []
  | some s => s

/-- Python `s.split(pat, 1)`: the part before the first occurrence and,
when `pat` occurs, the part after it. -/
def pySplit1 (s pat : Str) : Str × Option Str :=
  match firstOcc s pat with
  | some i => (s.take i, some (s.drop (i + pat.length)))
  | none => (s, none)

/-! ### The delimiter vocabulary of the parser -/

def thinkStart : Str := "<think>".data
def thinkEnd : Str := "</think>".data
def answerStart : Str := "<answer>".data
def answerEnd : Str := "</answer>".data

/-! ### Data model -/

/-- The streaming message returned by the parser: optional reasoning text
and optional content text (`DeltaMessage` restricted to the two fields the
parser sets). -/
structure DeltaMessage where
  reasoning_content : Option Str := none
  content : Option Str := none
deriving DecidableEq, Repr

/-- The streaming phase stored in `self.current_state`. -/
inductive Phase where
  | initial
  | thinking
  | content
deriving DecidableEq, Repr

/-- The mutable state of one `RoboBrainReasoningParser` instance. -/
structure ParserState where
  current_state : Phase
  buffer : Str
  thinking_complete : Bool
deriving DecidableEq, Repr

/-- The state set up by `__init__`. -/
def initState : ParserState := ⟨Phase.initial, [], false⟩

/-- The tokenizer capability consumed by the token-level helpers:
`decode(ids, skip_special_tokens)` and `encode(text, add_special_tokens)`. -/
structure Tokenizer where
  decode : List Nat → Bool → Str
  encode : Str → Bool → List Nat

/-! ### The full-text extractor, translated from
`extract_reasoning_content`. -/

def extract_reasoning_content (model_output : Str) :
    Option Str × Option Str :=
  let pair : Option Str × Option Str :=
    if pyContains model_output thinkStart ∧ pyContains model_output thinkEnd
    then
      let start_idx := (pyFind model_output thinkStart).toNat
        + thinkStart.length
      let end_idx := (pyFind model_output thinkEnd).toNat
      let reasoning_content := pyStrip (pySlice model_output start_idx end_idx)
      let remaining :=
        pyStrip (model_output.drop (end_idx + thinkEnd.length))
      if pyContains remaining answerStart ∧ pyContains remaining answerEnd
      then
        let answer_start_idx := (pyFind remaining answerStart).toNat
          + answerStart.length
        let answer_end_idx := (pyFind remaining answerEnd).toNat
        (some reasoning_content,
         some (pyStrip (pySlice remaining answer_start_idx answer_end_idx)))
      else if pyContains remaining answerStart then
        let answer_start_idx := (pyFind remaining answerStart).toNat
          + answerStart.length
        (some reasoning_content,
         some (pyStrip (remaining.drop answer_start_idx)))
      else
        (some reasoning_content, some remaining)
    else if pyContains model_output thinkStart then
      let start_idx := (pyFind model_output thinkStart).toNat
        + thinkStart.length
      (some (pyStrip (model_output.drop start_idx)), none)
    else if pyContains model_output answerStart ∧
        pyContains model_output answerEnd then
      let answer_start_idx := (pyFind model_output answerStart).toNat
        + answerStart.length
      let answer_end_idx := (pyFind model_output answerEnd).toNat
      (none,
       some (pyStrip (pySlice model_output answer_start_idx answer_end_idx)))
    else if pyContains model_output answerStart then
      let answer_start_idx := (pyFind model_output answerStart).toNat
        + answerStart.length
      (none, some (pyStrip (model_output.drop answer_start_idx)))
    else
      (none, some (pyStrip model_output))
  (emptyToNone pair.1, emptyToNone pair.2)

/-! ### The streaming extractor, translated from
`extract_reasoning_content_streaming`.  `previous_text` is received but,
as in the source, never consulted. -/

def extract_reasoning_content_streaming (st : ParserState)
    (_previous_text current_text delta_text : Str) :
    ParserState × Option DeltaMessage :=
  let st := { st with buffer := current_text }
  match st.current_state with
  | Phase.initial =>
    if pyContains st.buffer thinkStart then
      let st := { st with current_state := Phase.thinking }
      if pyContains delta_text thinkEnd then
        let think_start_idx := pyFind delta_text thinkStart
        let think_end_idx := pyFind delta_text thinkEnd
        if think_start_idx < think_end_idx then
          let reasoning := pySlice delta_text
            (think_start_idx + thinkStart.length).toNat think_end_idx.toNat
          let remaining :=
            delta_text.drop (think_end_idx + thinkEnd.length).toNat
          let remaining := removeAll answerEnd (removeAll answerStart remaining)
          ({ st with current_state := Phase.content,
                     thinking_complete := true },
           some ⟨strOpt reasoning, strOpt remaining⟩)
        else
          (st, none)
      else
        if pyContains delta_text thinkStart then
          let idx := (pyFind delta_text thinkStart).toNat + thinkStart.length
          let reasoning := delta_text.drop idx
          (st, some ⟨strOpt reasoning, none⟩)
        else
          (st, some ⟨some delta_text, none⟩)
    else if pyContains delta_text answerStart then
      let st := { st with current_state := Phase.content }
      let cont := removeAll answerEnd (removeAll answerStart delta_text)
      (st, some ⟨none, strOpt cont⟩)
    else
      if delta_text ≠ [] then
        (st, some ⟨none, some delta_text⟩)
      else
        (st, none)
  | Phase.thinking =>
    if pyContains delta_text thinkEnd then
      let idx := (pyFind delta_text thinkEnd).toNat
      let reasoning := delta_text.take idx
      let remaining := delta_text.drop (idx + thinkEnd.length)
      let remaining := removeAll answerEnd (removeAll answerStart remaining)
      ({ st with current_state := Phase.content, thinking_complete := true },
       some ⟨strOpt reasoning, strOpt remaining⟩)
    else
      (st, some ⟨some delta_text, none⟩)
  | Phase.content =>
    let cont := removeAll answerEnd (removeAll answerStart delta_text)
    if cont ≠ [] then
      (st, some ⟨none, some cont⟩)
    else
      (st, none)

/-! ### Token-level helpers, translated from `is_reasoning_end` and
`extract_content_ids`. -/

def is_reasoning_end (tok : Tokenizer) (input_ids : List Nat) : Bool :=
  let text := tok.decode input_ids true
  pyContains text thinkEnd

def extract_content_ids (tok : Tokenizer) (input_ids : List Nat) :
    List Nat :=
  let text := tok.decode input_ids true
  if pyContains text thinkEnd then
    let parts := pySplit1 text thinkEnd
    match parts.2 with
    | some content_text =>
      let content_text :=
        removeAll answerEnd (removeAll answerStart content_text)
      tok.encode content_text false
    | none => []
  else
    []

/-! ### Runs of the streaming extractor -/

/-- The arguments of one streaming call. -/
structure StreamCall where
  previous : Str
  current : Str
  delta : Str
deriving DecidableEq, Repr

/-- Run a sequence of streaming calls on one parser instance, collecting
the returned updates. -/
def runStream : ParserState → List StreamCall → ParserState × List (Option DeltaMessage)
  | st, [] => (st, [])
  | st, c :: cs =>
    let step := extract_reasoning_content_streaming st c.previous c.current c.delta
    let rest := runStream step.1 cs
    (rest.1, step.2 :: rest.2)

/-- The reasoning text carried by one optional update. -/
def updReasoning : Option DeltaMessage → Str
  | none => []
  | some m => optText m.reasoning_content

/-- The content text carried by one optional update. -/
def updContent : Option DeltaMessage → Str
  | none => []
  | some m => optText m.content

/-- Concatenation of all reasoning fragments of a run. -/
def reasoningConcat (ms : List (Option DeltaMessage)) : Str :=
  (ms.map updReasoning).flatten

/-- Concatenation of all content fragments of a run. -/
def contentConcat (ms : List (Option DeltaMessage)) : Str :=
  (ms.map updContent).flatten

/-! ### Basic facts about the string model -/

theorem firstOcc_some_prefix {s pat : Str} {i : Nat}
    (h : firstOcc s pat = some i) : pat <+: s.drop i := by
  induction s generalizing i with
  | nil =>
    unfold firstOcc at h
    by_cases hp : pat.isPrefixOf ([] : Str)
    · simp [hp] at h
      subst h
      exact List.isPrefixOf_iff_prefix.mp hp
    · simp [hp] at h
  | cons c t ih =>
    unfold firstOcc at h
    by_cases hp : pat.isPrefixOf (c :: t)
    · simp [hp] at h
      subst h
      exact List.isPrefixOf_iff_prefix.mp hp
    · simp [hp] at h
      obtain ⟨j, hj, rfl⟩ := h
      simpa using ih hj

theorem firstOcc_some_min {s pat : Str} {i : Nat}
    (h : firstOcc s pat = some i) : ∀ j < i, ¬ pat <+: s.drop j := by
  induction s generalizing i with
  | nil =>
    unfold firstOcc at h
    by_cases hp : pat.isPrefixOf ([] : Str)
    · simp [hp] at h
      subst h
      omega
    · simp [hp] at h
  | cons c t ih =>
    unfold firstOcc at h
    by_cases hp : pat.isPrefixOf (c :: t)
    · simp [hp] at h
      subst h
      omega
    · simp [hp] at h
      obtain ⟨k, hk, rfl⟩ := h
      intro j hj
      match j with
      | 0 =>
        intro hpre
        exact hp (List.isPrefixOf_iff_prefix.mpr hpre)
      | Nat.succ j =>
        simpa using ih hk j (by omega)

theorem firstOcc_none_no_occ {s pat : Str}
    (h : firstOcc s pat = none) : ∀ j, ¬ pat <+: s.drop j := by
  induction s with
  | nil =>
    unfold firstOcc at h
    by_cases hp : pat.isPrefixOf ([] : Str)
    · simp [hp] at h
    · intro j hpre
      rw [List.drop_nil] at hpre
      exact hp (List.isPrefixOf_iff_prefix.mpr hpre)
  | cons c t ih =>
    unfold firstOcc at h
    by_cases hp : pat.isPrefixOf (c :: t)
    · simp [hp] at h
    · simp [hp] at h
      intro j
      match j with
      | 0 =>
        intro hpre
        exact hp (List.isPrefixOf_iff_prefix.mpr hpre)
      | Nat.succ j =>
        simpa using ih h j

/-- Substring containment is equivalent to a three-way decomposition. -/
theorem pyContains_iff_exists {s pat : Str} :
    pyContains s pat = true ↔ ∃ a b, s = a ++ pat ++ b := by
  constructor
  · intro h
    unfold pyContains at h
    obtain ⟨i, hi⟩ := Option.isSome_iff_exists.mp h
    obtain ⟨b, hb⟩ := firstOcc_some_prefix hi
    refine ⟨s.take i, b, ?_⟩
    conv_lhs => rw [← List.take_append_drop i s, ← hb]
    simp
  · rintro ⟨a, b, rfl⟩
    unfold pyContains
    cases hfo : firstOcc (a ++ pat ++ b) pat with
    | some i => simp
    | none =>
      exfalso
      refine firstOcc_none_no_occ hfo a.length ?_
      rw [List.append_assoc, List.drop_left' rfl]
      exact ⟨b, rfl⟩

theorem pyContains_append_right {c d pat : Str}
    (h : pyContains d pat = true) : pyContains (c ++ d) pat = true := by
  obtain ⟨a, b, rfl⟩ := pyContains_iff_exists.mp h
  exact pyContains_iff_exists.mpr ⟨c ++ a, b, by simp⟩

theorem pyContains_mono_contiguous {s t pat : Str} (hin : t <:+: s)
    (h : pyContains s pat = false) : pyContains t pat = false := by
  by_contra hne
  rw [Bool.not_eq_false] at hne
  obtain ⟨a, b, rfl⟩ := pyContains_iff_exists.mp hne
  obtain ⟨u, v, rfl⟩ := hin
  rw [← Bool.not_eq_true] at h
  exact h (pyContains_iff_exists.mpr ⟨u ++ a, b ++ v, by simp⟩)

theorem pyContains_cons_false {c : Char} {t pat : Str}
    (h : pyContains (c :: t) pat = false) :
    pat.isPrefixOf (c :: t) = false ∧ pyContains t pat = false := by
  unfold pyContains at h ⊢
  unfold firstOcc at h
  by_cases hp : pat.isPrefixOf (c :: t)
  · simp [hp] at h
  · constructor
    · exact Bool.eq_false_iff.mpr hp
    · simp [hp] at h
      simp [h]

theorem removeAllGo_no_occ {pat : Str} :
    ∀ fuel s, pyContains s pat = false → removeAllGo pat fuel s = s := by
  intro fuel
  induction fuel with
  | zero =>
    intro s _
    unfold removeAllGo
    cases s <;> rfl
  | succ fuel ih =>
    intro s hs
    cases s with
    | nil => rfl
    | cons c t =>
      obtain ⟨hpre, htail⟩ := pyContains_cons_false hs
      unfold removeAllGo
      rw [if_neg (by simp [hpre])]
      rw [ih t htail]

/-- `s.replace(pat, "")` is the identity when `pat` does not occur. -/
theorem removeAll_no_occ {pat s : Str}
    (h : pyContains s pat = false) : removeAll pat s = s :=
  removeAllGo_no_occ s.length s h

/-- `strip` returns a contiguous piece of its argument. -/
theorem pyStrip_contiguous (s : Str) : pyStrip s <:+: s := by
  unfold pyStrip
  have h1 : s.dropWhile isPyWS <:+ s := List.dropWhile_suffix isPyWS
  have h2 : (s.dropWhile isPyWS).reverse.dropWhile isPyWS <:+
      (s.dropWhile isPyWS).reverse := List.dropWhile_suffix isPyWS
  have h3 : ((s.dropWhile isPyWS).reverse.dropWhile isPyWS).reverse <+:
      s.dropWhile isPyWS := by
    have := List.reverse_prefix.mpr h2
    simpa using this
  exact h3.isInfix.trans h1.isInfix

theorem optText_strOpt (s : Str) : optText (strOpt s) = s := by
  by_cases h : s = [] <;> simp [strOpt, optText, h]

theorem optText_emptyToNone_some (s : Str) :
    optText (emptyToNone (some s)) = s := by
  by_cases h : s = [] <;> simp [emptyToNone, optText, h]

theorem emptyToNone_ne_some_nil (o : Option Str) :
    emptyToNone o ≠ some [] := by
  match o with
  | none => simp [emptyToNone]
  | some s =>
    by_cases h : s = [] <;> simp [emptyToNone, h]

theorem pySlice_middle (a b rest : Str) :
    pySlice (a ++ (b ++ rest)) a.length (a.length + b.length) = b := by
  unfold pySlice
  rw [← List.append_assoc]
  rw [List.take_left' (by simp)]
  exact List.drop_left' rfl

theorem drop_third (a b c rest : Str) :
    (a ++ (b ++ (c ++ rest))).drop (a.length + b.length + c.length) = rest := by
  rw [← List.append_assoc, ← List.append_assoc]
  exact List.drop_left' (by simp [Nat.add_assoc])

/-- The spec's §4.1 answer computation from the trimmed remainder after the
first `think_end`: between the first answer tags when both occur, after the
first `answer_start` when only it occurs, else the remainder verbatim. -/
def specAnswerFromRemaining (remaining : Str) : Str :=
  if pyContains remaining answerStart ∧ pyContains remaining answerEnd then
    pyStrip (pySlice remaining
      ((pyFind remaining answerStart).toNat + answerStart.length)
      (pyFind remaining answerEnd).toNat)
  else if pyContains remaining answerStart then
    pyStrip (remaining.drop
      ((pyFind remaining answerStart).toNat + answerStart.length))
  else remaining

/-- Shape of the full-text extractor when both think markers occur, in
terms of the first-occurrence indices. -/
theorem full_both {s : Str} {i j : Nat}
    (hi : firstOcc s thinkStart = some i)
    (hj : firstOcc s thinkEnd = some j) :
    extract_reasoning_content s =
      (emptyToNone (some (pyStrip (pySlice s (i + thinkStart.length) j))),
       emptyToNone (some (specAnswerFromRemaining
         (pyStrip (s.drop (j + thinkEnd.length)))))) := by
  have hts : pyContains s thinkStart = true := by
    unfold pyContains
    rw [hi]
    rfl
  have hte : pyContains s thinkEnd = true := by
    unfold pyContains
    rw [hj]
    rfl
  have hfi : (pyFind s thinkStart).toNat = i := by
    unfold pyFind
    rw [hi]
    rfl
  have hfj : (pyFind s thinkEnd).toNat = j := by
    unfold pyFind
    rw [hj]
    rfl
  unfold extract_reasoning_content specAnswerFromRemaining
  rw [if_pos ⟨hts, hte⟩, hfi, hfj]
  dsimp only
  split_ifs <;> rfl

/-- Shape of the streaming extractor in `initial` state when the delta
holds a whole think block (`think_start` strictly before `think_end`),
in terms of the first-occurrence indices inside the delta. -/
theorem streaming_initial_block {st : ParserState} {prev cur delta : Str}
    {i j : Nat}
    (hst : st.current_state = Phase.initial)
    (hcur : pyContains cur thinkStart = true)
    (hi : firstOcc delta thinkStart = some i)
    (hj : firstOcc delta thinkEnd = some j)
    (hij : i < j) :
    extract_reasoning_content_streaming st prev cur delta =
      (⟨Phase.content, cur, true⟩,
       some ⟨strOpt (pySlice delta (i + thinkStart.length) j),
             strOpt (removeAll answerEnd (removeAll answerStart
               (delta.drop (j + thinkEnd.length))))⟩) := by
  obtain ⟨cs, b, tc⟩ := st
  simp only at hst
  subst hst
  have hte : pyContains delta thinkEnd = true := by
    unfold pyContains
    rw [hj]
    rfl
  have hfi : pyFind delta thinkStart = (i : Int) := by
    unfold pyFind
    rw [hi]
    rfl
  have hfj : pyFind delta thinkEnd = (j : Int) := by
    unfold pyFind
    rw [hj]
    rfl
  unfold extract_reasoning_content_streaming
  dsimp only
  rw [if_pos hcur, if_pos hte, hfi, hfj]
  rw [if_pos (by exact_mod_cast hij)]
  have e1 : ((i : Int) + (thinkStart.length : Int)).toNat
      = i + thinkStart.length := by omega
  have e2 : ((j : Int) + (thinkEnd.length : Int)).toNat
      = j + thinkEnd.length := by omega
  have e3 : ((j : Int)).toNat = j := by omega
  rw [e1, e2, e3]

/-- Shape of the streaming extractor in `thinking` state when the delta
contains `think_end`, in terms of the first-occurrence index. -/
theorem streaming_thinking_end {st : ParserState} {prev cur delta : Str}
    {j : Nat}
    (hst : st.current_state = Phase.thinking)
    (hj : firstOcc delta thinkEnd = some j) :
    extract_reasoning_content_streaming st prev cur delta =
      (⟨Phase.content, cur, true⟩,
       some ⟨strOpt (delta.take j),
             strOpt (removeAll answerEnd (removeAll answerStart
               (delta.drop (j + thinkEnd.length))))⟩) := by
  obtain ⟨cs, b, tc⟩ := st
  simp only at hst
  subst hst
  have hte : pyContains delta thinkEnd = true := by
    unfold pyContains
    rw [hj]
    rfl
  have hfj : pyFind delta thinkEnd = (j : Int) := by
    unfold pyFind
    rw [hj]
    rfl
  unfold extract_reasoning_content_streaming
  dsimp only
  rw [if_pos hte, hfj]
  have e3 : ((j : Int)).toNat = j := by omega
  rw [e3]

/-- A miniature concrete tokenizer used to instantiate the token-level
theorems: token id `n` decodes to the character with code point `n`, and
encoding maps characters back to their code points. -/
def toyTokenizer : Tokenizer where
  decode ids _ := ids.map Char.ofNat
  encode s _ := s.map Char.toNat

/-! ### Claims about the full-text extractor and token helpers -/

/-- C2: when both `think_start` and `think_end` occur in the text, the
full-text extractor returns as reasoning the trimmed substring strictly
between their first occurrences (delimiters excluded; empty normalised to
absent), and as answer the case split over the trimmed remainder after the
first `think_end`: the trimmed span between the first answer tags when
both occur in the remainder, the trimmed text after the first
`answer_start` when only it occurs, and the remainder itself otherwise.
In particular `<think>abc</think><answer>xy</answer>` yields
`(some "abc", some "xy")` — see the witness. -/
theorem claim_C2_full_text_both_markers {s : Str} {i j : Nat}
    (hi : firstOcc s thinkStart = some i)
    (hj : firstOcc s thinkEnd = some j) :
    extract_reasoning_content s =
      (emptyToNone (some (pyStrip (pySlice s (i + thinkStart.length) j))),
       emptyToNone (some (specAnswerFromRemaining
         (pyStrip (s.drop (j + thinkEnd.length)))))) :=
  full_both hi hj

theorem claim_C2_witness :
    extract_reasoning_content "<think>abc</think><answer>xy</answer>".data
      = (some "abc".data, some "xy".data) := by
  have h := @claim_C2_full_text_both_markers
      "<think>abc</think><answer>xy</answer>".data 0 10
      (by decide) (by decide)
  rw [h]
  decide

/-- C7: the full-text extractor never returns the empty string for either
component of its pair: both components pass through the final
empty-to-absent normalisation. -/
theorem claim_C7_no_empty_component (s : Str) :
    (extract_reasoning_content s).1 ≠ some [] ∧
    (extract_reasoning_content s).2 ≠ some [] :=
  ⟨emptyToNone_ne_some_nil _, emptyToNone_ne_some_nil _⟩

/-- C8: `is_reasoning_end` returns true exactly when the `think_end`
delimiter occurs as a substring of the text decoded from the token ids
with special tokens skipped.  It is a pure function of the tokenizer and
the id sequence — its type consumes no `ParserState`. -/
theorem claim_C8_is_reasoning_end_iff_substring (tok : Tokenizer)
    (input_ids : List Nat) :
    is_reasoning_end tok input_ids = true ↔
      ∃ a b, tok.decode input_ids true = a ++ thinkEnd ++ b := by
  unfold is_reasoning_end
  exact pyContains_iff_exists

/-- C9: `extract_content_ids` returns the empty sequence when `think_end`
does not occur in the decoded text; when it first occurs at index `j`, it
returns the re-encoding (without special tokens) of the decoded text after
that occurrence with the literal answer tags removed. -/
theorem claim_C9_extract_content_ids (tok : Tokenizer)
    (input_ids : List Nat) :
    (pyContains (tok.decode input_ids true) thinkEnd = false →
      extract_content_ids tok input_ids = [])
    ∧ ∀ j, firstOcc (tok.decode input_ids true) thinkEnd = some j →
        extract_content_ids tok input_ids =
          tok.encode (removeAll answerEnd (removeAll answerStart
            ((tok.decode input_ids true).drop (j + thinkEnd.length)))) false := by
  constructor
  · intro h
    unfold extract_content_ids
    rw [if_neg (by simp [h])]
  · intro j hj
    have hc : pyContains (tok.decode input_ids true) thinkEnd = true := by
      unfold pyContains
      rw [hj]
      rfl
    unfold extract_content_ids pySplit1
    dsimp only
    rw [if_pos hc, hj]

theorem claim_C9_witness :
    extract_content_ids toyTokenizer ("foo</think>bar".data.map Char.toNat)
      = "bar".data.map Char.toNat := by
  have h := (claim_C9_extract_content_ids toyTokenizer
      ("foo</think>bar".data.map Char.toNat)).2 3 (by decide)
  rw [h]
  decide

/-! ### Claims about the streaming extractor -/

/-- C3: in `initial` state, a delta containing a whole think block —
`think_start` first at index `i`, `think_end` first at index `j`, with
`i < j` — produces in one call an update whose reasoning fragment is the
delta text strictly between the delimiters (absent if empty) and whose
content fragment is the delta text after `think_end` with the literal
answer tags removed (absent if empty); the state moves directly to
`content` with `thinking_complete` set true.  The single delta
`"<think>abc</think>answer"` yields `("abc", "answer")` — see witness. -/
theorem claim_C3_initial_whole_block {st : ParserState} {prev delta : Str}
    {i j : Nat}
    (hst : st.current_state = Phase.initial)
    (hi : firstOcc delta thinkStart = some i)
    (hj : firstOcc delta thinkEnd = some j)
    (hij : i < j) :
    extract_reasoning_content_streaming st prev (prev ++ delta) delta =
      (⟨Phase.content, prev ++ delta, true⟩,
       some ⟨strOpt (pySlice delta (i + thinkStart.length) j),
             strOpt (removeAll answerEnd (removeAll answerStart
               (delta.drop (j + thinkEnd.length))))⟩) := by
  have hcur : pyContains (prev ++ delta) thinkStart = true :=
    pyContains_append_right (by unfold pyContains; rw [hi]; rfl)
  exact streaming_initial_block hst hcur hi hj hij

theorem claim_C3_witness :
    extract_reasoning_content_streaming initState []
        "<think>abc</think>answer".data "<think>abc</think>answer".data
      = (⟨Phase.content, "<think>abc</think>answer".data, true⟩,
         some ⟨some "abc".data, some "answer".data⟩) := by
  have h := @claim_C3_initial_whole_block initState []
      "<think>abc</think>answer".data 0 10 rfl (by decide) (by decide)
      (by decide)
  exact h.trans (by decide)

/-- C4 fails as stated: in `thinking` state the delta `"</think>"` does
contain `think_end`, yet the call returns an update in which BOTH fields
are absent — the text before the delimiter and the cleaned text after it
are both empty — contradicting the clause that in every returned update at
least one of the two fields is present. -/
theorem claim_C4_counterexample :
    (extract_reasoning_content_streaming
        ⟨Phase.thinking, "<think>".data, false⟩
        "<think>".data "<think></think>".data "</think>".data).2
      = some ⟨none, none⟩ := by
  decide

/-- C4 (amended): in `thinking` state, when the delta's first `think_end`
occurrence is at index `j`, the call returns an update whose reasoning
fragment is the delta text before `j` and whose content fragment is the
delta text after the delimiter with the literal answer tags removed, each
field absent when its text is empty — but the two fields may be absent
simultaneously (e.g. for the delta `"</think>"`); the state moves to
`content` and `thinking_complete` becomes true. -/
theorem claim_C4_thinking_end_split {st : ParserState} {prev cur delta : Str}
    {j : Nat}
    (hst : st.current_state = Phase.thinking)
    (hj : firstOcc delta thinkEnd = some j) :
    extract_reasoning_content_streaming st prev cur delta =
      (⟨Phase.content, cur, true⟩,
       some ⟨strOpt (delta.take j),
             strOpt (removeAll answerEnd (removeAll answerStart
               (delta.drop (j + thinkEnd.length))))⟩) :=
  streaming_thinking_end hst hj

theorem claim_C4_witness :
    extract_reasoning_content_streaming ⟨Phase.thinking, [], false⟩
        "p".data "pabc</think>xyz".data "abc</think>xyz".data
      = (⟨Phase.content, "pabc</think>xyz".data, true⟩,
         some ⟨some "abc".data, some "xyz".data⟩) := by
  have h := @claim_C4_thinking_end_split ⟨Phase.thinking, [], false⟩
      "p".data "pabc</think>xyz".data "abc</think>xyz".data 3 rfl (by decide)
  exact h.trans (by decide)

/-- C5: from `initial` state the think branch is entered exactly when
`think_start` occurs in the accumulated current text: the post-call state
is `thinking`, or `content` with `thinking_complete` true, if and only if
`current_text` contains `think_start` — even when no single delta contains
the whole delimiter (e.g. it arrived as `"<th"` then `"ink>"`, see the
witness).  And when the state has flipped but the delta contains neither
`think_start` nor `think_end`, the entire delta is emitted verbatim as a
reasoning fragment. -/
theorem claim_C5_initial_transition_on_current (st : ParserState)
    (prev cur delta : Str)
    (hst : st.current_state = Phase.initial)
    (htc : st.thinking_complete = false) :
    (((extract_reasoning_content_streaming st prev cur delta).1.current_state
        = Phase.thinking ∨
      ((extract_reasoning_content_streaming st prev cur delta).1.current_state
        = Phase.content ∧
       (extract_reasoning_content_streaming st prev cur delta).1.thinking_complete
        = true))
      ↔ pyContains cur thinkStart = true)
    ∧ (pyContains cur thinkStart = true →
       pyContains delta thinkStart = false →
       pyContains delta thinkEnd = false →
       extract_reasoning_content_streaming st prev cur delta =
         (⟨Phase.thinking, cur, false⟩, some ⟨some delta, none⟩)) := by
  obtain ⟨cs, b, tc⟩ := st
  simp only at hst htc
  subst hst
  subst htc
  unfold extract_reasoning_content_streaming
  dsimp only
  split_ifs <;> simp_all

theorem claim_C5_witness :
    extract_reasoning_content_streaming initState "<th".data
        "<think>".data "ink>".data
      = (⟨Phase.thinking, "<think>".data, false⟩,
         some ⟨some "ink>".data, none⟩) :=
  (claim_C5_initial_transition_on_current initState "<th".data
      "<think>".data "ink>".data rfl rfl).2 (by decide) (by decide) (by decide)

/-- C10: from `initial` state, when the current text contains
`think_start` and the delta's first `think_end` occurrence (index `j`) is
at or before its first `think_start` occurrence (index `i`), the call
flips the state to `thinking` but returns no update at all; and since in
every non-`initial` state the returned update is a function of the
incoming delta alone (previous/current text never affect it), the
swallowed delta text is never emitted as a fragment by any later call
either. -/
theorem claim_C10_reversed_delimiters_lost {st : ParserState}
    {prev cur delta : Str} {i j : Nat}
    (hst : st.current_state = Phase.initial)
    (hcur : pyContains cur thinkStart = true)
    (hi : firstOcc delta thinkStart = some i)
    (hj : firstOcc delta thinkEnd = some j)
    (hji : j ≤ i) :
    extract_reasoning_content_streaming st prev cur delta =
      ({ st with current_state := Phase.thinking, buffer := cur }, none)
    ∧ ∀ (st2 : ParserState) (p1 c1 p2 c2 d : Str),
        st2.current_state ≠ Phase.initial →
        (extract_reasoning_content_streaming st2 p1 c1 d).2 =
          (extract_reasoning_content_streaming st2 p2 c2 d).2 := by
  constructor
  · obtain ⟨cs, b, tc⟩ := st
    simp only at hst
    subst hst
    have hte : pyContains delta thinkEnd = true := by
      unfold pyContains
      rw [hj]
      rfl
    have hfi : pyFind delta thinkStart = (i : Int) := by
      unfold pyFind
      rw [hi]
      rfl
    have hfj : pyFind delta thinkEnd = (j : Int) := by
      unfold pyFind
      rw [hj]
      rfl
    unfold extract_reasoning_content_streaming
    dsimp only
    rw [if_pos hcur, if_pos hte, hfi, hfj,
      if_neg (by exact_mod_cast Nat.not_lt.mpr hji)]
  · intro st2 p1 c1 p2 c2 d hne
    obtain ⟨cs, b, tc⟩ := st2
    simp only at hne
    cases cs with
    | initial => exact absurd rfl hne
    | thinking =>
      unfold extract_reasoning_content_streaming
      dsimp only
      split_ifs <;> rfl
    | content =>
      unfold extract_reasoning_content_streaming
      dsimp only
      split_ifs <;> rfl

theorem claim_C10_witness :
    extract_reasoning_content_streaming initState []
        "</think><think>".data "</think><think>".data
      = (⟨Phase.thinking, "</think><think>".data, false⟩, none) := by
  have h := (@claim_C10_reversed_delimiters_lost initState []
      "</think><think>".data "</think><think>".data 8 0
      rfl (by decide) (by decide) (by decide) (by decide)).1
  exact h.trans (by decide)

/-- Numeric rank of a phase in the order `initial < thinking < content`. -/
def phaseIdx : Phase → Nat
  | Phase.initial => 0
  | Phase.thinking => 1
  | Phase.content => 2

/-- One streaming call never moves the phase backward, and `content` is
absorbing. -/
theorem step_phase_mono (st : ParserState) (p c d : Str) :
    phaseIdx st.current_state ≤
      phaseIdx (extract_reasoning_content_streaming st p c d).1.current_state
    ∧ (st.current_state = Phase.content →
       (extract_reasoning_content_streaming st p c d).1.current_state
         = Phase.content) := by
  obtain ⟨cs, b, tc⟩ := st
  cases cs <;>
    (unfold extract_reasoning_content_streaming
     dsimp only
     split_ifs <;> simp [phaseIdx])

theorem runStream_append_fst (st : ParserState) (l1 l2 : List StreamCall) :
    (runStream st (l1 ++ l2)).1 = (runStream (runStream st l1).1 l2).1 := by
  induction l1 generalizing st with
  | nil => rfl
  | cons c cs ih => simp [runStream, ih]

theorem runStream_phase_mono (st : ParserState) (l : List StreamCall) :
    phaseIdx st.current_state ≤ phaseIdx (runStream st l).1.current_state
    ∧ (st.current_state = Phase.content →
       (runStream st l).1.current_state = Phase.content) := by
  induction l generalizing st with
  | nil => exact ⟨Nat.le_refl _, fun h => h⟩
  | cons c cs ih =>
    have hs := step_phase_mono st c.previous c.current c.delta
    have hr := ih
      (extract_reasoning_content_streaming st c.previous c.current c.delta).1
    have hfst : (runStream st (c :: cs)).1 =
        (runStream (extract_reasoning_content_streaming st
          c.previous c.current c.delta).1 cs).1 := by
      simp [runStream]
    constructor
    · rw [hfst]
      exact Nat.le_trans hs.1 hr.1
    · intro h
      rw [hfst]
      exact hr.2 (hs.2 h)

/-- C6: over every sequence of calls on one instance the phase only ever
moves forward in the order `initial < thinking < content` — extending a
run never lowers the phase rank — and once the state is `content` it stays
`content` for all further calls. -/
theorem claim_C6_phase_monotone (st : ParserState)
    (calls1 calls2 : List StreamCall) :
    phaseIdx (runStream st calls1).1.current_state ≤
      phaseIdx (runStream st (calls1 ++ calls2)).1.current_state
    ∧ ((runStream st calls1).1.current_state = Phase.content →
       (runStream st (calls1 ++ calls2)).1.current_state = Phase.content) := by
  rw [runStream_append_fst]
  exact runStream_phase_mono _ _

theorem claim_C6_witness :
    phaseIdx (runStream initState
        [⟨[], "<think>a</think>".data, "<think>a</think>".data⟩]).1.current_state ≤
      phaseIdx (runStream initState
        ([⟨[], "<think>a</think>".data, "<think>a</think>".data⟩] ++
         [⟨"<think>a</think>".data, "<think>a</think>b".data, "b".data⟩])).1.current_state
    ∧ (runStream initState
        ([⟨[], "<think>a</think>".data, "<think>a</think>".data⟩] ++
         [⟨"<think>a</think>".data, "<think>a</think>b".data, "b".data⟩])).1.current_state
        = Phase.content := by
  have h := claim_C6_phase_monotone initState
      [⟨[], "<think>a</think>".data, "<think>a</think>".data⟩]
      [⟨"<think>a</think>".data, "<think>a</think>b".data, "b".data⟩]
  exact ⟨h.1, h.2 (by decide)⟩

/-- C1 is false as stated, already for the single-delta split: (i) fed
`"<think>r</think>c<answer>a</answer>"` in one delta, the streaming
extractor emits content `"ca"` (it deletes the literal answer tags from
the tail) while the full-text extractor computes the answer span `"a"`
(the text between the tags) — no trim reconciles them; (ii) for the split
`["x", "<think>a</think>b"]` the streaming content concatenation is
`"xb"` while the full-text answer span is `"b"` (text before
`think_start` is emitted as content by streaming but dropped by the
full-text extractor). -/
theorem claim_C1_counterexample :
    (contentConcat (runStream initState
        [⟨[], "<think>r</think>c<answer>a</answer>".data,
          "<think>r</think>c<answer>a</answer>".data⟩]).2 = "ca".data
     ∧ (extract_reasoning_content
          "<think>r</think>c<answer>a</answer>".data).2 = some "a".data
     ∧ pyStrip (contentConcat (runStream initState
          [⟨[], "<think>r</think>c<answer>a</answer>".data,
            "<think>r</think>c<answer>a</answer>".data⟩]).2)
        ≠ optText (extract_reasoning_content
            "<think>r</think>c<answer>a</answer>".data).2)
    ∧ (contentConcat (runStream initState
        [⟨[], "x".data, "x".data⟩,
         ⟨"x".data, "x<think>a</think>b".data, "<think>a</think>b".data⟩]).2
        = "xb".data
     ∧ (extract_reasoning_content "x<think>a</think>b".data).2
        = some "b".data
     ∧ pyStrip (contentConcat (runStream initState
          [⟨[], "x".data, "x".data⟩,
           ⟨"x".data, "x<think>a</think>b".data,
            "<think>a</think>b".data⟩]).2)
        ≠ optText (extract_reasoning_content "x<think>a</think>b".data).2) := by
  decide

/-- C1 (amended): the refinement holds for a fresh instance fed the whole
text in a single delta when the text has the exact shape
`think_start ++ R ++ think_end ++ C`, its first `think_end` occurrence is
the explicit delimiter after `R`, and `C` is free of answer-tag
occurrences: the concatenation of all emitted reasoning fragments equals
the reasoning span computed by the full-text extractor modulo its one-time
trim, and likewise the concatenation of all emitted content fragments
equals the answer span. -/
theorem claim_C1_single_delta_refinement (R C : Str)
    (h1 : firstOcc (thinkStart ++ R ++ thinkEnd ++ C) thinkStart = some 0)
    (h2 : firstOcc (thinkStart ++ R ++ thinkEnd ++ C) thinkEnd
      = some (thinkStart.length + R.length))
    (hCs : pyContains C answerStart = false)
    (hCe : pyContains C answerEnd = false) :
    pyStrip (reasoningConcat (runStream initState
        [⟨[], thinkStart ++ R ++ thinkEnd ++ C,
          thinkStart ++ R ++ thinkEnd ++ C⟩]).2)
      = optText (extract_reasoning_content
          (thinkStart ++ R ++ thinkEnd ++ C)).1
    ∧ pyStrip (contentConcat (runStream initState
        [⟨[], thinkStart ++ R ++ thinkEnd ++ C,
          thinkStart ++ R ++ thinkEnd ++ C⟩]).2)
      = optText (extract_reasoning_content
          (thinkStart ++ R ++ thinkEnd ++ C)).2 := by
  have hcur : pyContains (thinkStart ++ R ++ thinkEnd ++ C) thinkStart
      = true := by
    unfold pyContains
    rw [h1]
    rfl
  have hij : 0 < thinkStart.length + R.length := by
    have h7 : thinkStart.length = 7 := rfl
    omega
  have hstep := @streaming_initial_block initState []
      (thinkStart ++ R ++ thinkEnd ++ C) (thinkStart ++ R ++ thinkEnd ++ C)
      0 (thinkStart.length + R.length) rfl hcur h1 h2 hij
  have hfull := full_both h1 h2
  have hslice : pySlice (thinkStart ++ R ++ thinkEnd ++ C)
      (0 + thinkStart.length) (thinkStart.length + R.length) = R := by
    rw [Nat.zero_add, List.append_assoc, List.append_assoc]
    exact pySlice_middle thinkStart R (thinkEnd ++ C)
  have hdrop : (thinkStart ++ R ++ thinkEnd ++ C).drop
      (thinkStart.length + R.length + thinkEnd.length) = C := by
    rw [List.append_assoc, List.append_assoc]
    exact drop_third thinkStart R thinkEnd C
  have hrem : removeAll answerEnd (removeAll answerStart C) = C := by
    rw [removeAll_no_occ hCs, removeAll_no_occ hCe]
  have hs1 : pyContains (pyStrip C) answerStart = false :=
    pyContains_mono_contiguous (pyStrip_contiguous C) hCs
  have hspec : specAnswerFromRemaining (pyStrip C) = pyStrip C := by
    unfold specAnswerFromRemaining
    rw [if_neg (by simp [hs1]), if_neg (by simp [hs1])]
  rw [hslice, hdrop, hrem] at hstep
  rw [hslice, hdrop, hspec] at hfull
  have hmsg := congrArg Prod.snd hstep
  have hrun : (runStream initState
      [⟨[], thinkStart ++ R ++ thinkEnd ++ C,
        thinkStart ++ R ++ thinkEnd ++ C⟩]).2
      = [(extract_reasoning_content_streaming initState []
          (thinkStart ++ R ++ thinkEnd ++ C)
          (thinkStart ++ R ++ thinkEnd ++ C)).2] := by
    simp [runStream]
  constructor
  · rw [hrun, hmsg, hfull]
    simp [reasoningConcat, updReasoning, optText_strOpt,
      optText_emptyToNone_some]
  · rw [hrun, hmsg, hfull]
    simp [contentConcat, updContent, optText_strOpt, optText_emptyToNone_some]

theorem claim_C1_witness :
    pyStrip (reasoningConcat (runStream initState
        [⟨[], thinkStart ++ " hi ".data ++ thinkEnd ++ "ans".data,
          thinkStart ++ " hi ".data ++ thinkEnd ++ "ans".data⟩]).2)
      = optText (extract_reasoning_content
          (thinkStart ++ " hi ".data ++ thinkEnd ++ "ans".data)).1
    ∧ pyStrip (contentConcat (runStream initState
        [⟨[], thinkStart ++ " hi ".data ++ thinkEnd ++ "ans".data,
          thinkStart ++ " hi ".data ++ thinkEnd ++ "ans".data⟩]).2)
      = optText (extract_reasoning_content
          (thinkStart ++ " hi ".data ++ thinkEnd ++ "ans".data)).2 :=
  claim_C1_single_delta_refinement " hi ".data "ans".data
    (by decide) (by decide) (by decide) (by decide)


theorem claim_C7_witness :
    ((extract_reasoning_content "<think> </think>".data).1 ≠ some []
      ∧ (extract_reasoning_content "<think> </think>".data).2 ≠ some [])
    ∧ extract_reasoning_content "<think> </think>".data = (none, none) :=
  ⟨claim_C7_no_empty_component "<think> </think>".data, by decide⟩

theorem claim_C8_witness :
    (is_reasoning_end toyTokenizer ("foo</think>bar".data.map Char.toNat)
        = true ↔
      ∃ a b, toyTokenizer.decode ("foo</think>bar".data.map Char.toNat) true
        = a ++ thinkEnd ++ b)
    ∧ is_reasoning_end toyTokenizer ("foo</think>bar".data.map Char.toNat)
        = true :=
  ⟨claim_C8_is_reasoning_end_iff_substring toyTokenizer
      ("foo</think>bar".data.map Char.toNat), by decide⟩
